import Mathlib

/-!
Verification of the chess repository's board-state and move-generation core.

The repository holds two coexisting implementations:

* `src/engine.py` — piece classes (`Pawn`, `Knight`, and the sliding pieces
  `Bishop`, `Rook`, `Queen`, `King` built on `BoundMoveMixin`) together with a
  `Board` holding `Optional[Piece]` squares.  Embedded below in namespace
  `Engine`.
* `src/engine/board.py` — a numpy-backed `Board` storing, per square, four
  `int8` values `(color, type, has_moved, occupied)`.  Embedded below in
  namespace `BoardModule`.

Machine integers are modelled as `Int` with an explicit `int8` wrap where the
numpy code stores values; Python/numpy indexing (including negative-index
wraparound) is modelled explicitly; fallible operations return `Except`.
-/

namespace Engine

/-- Modelled from the spec: `config.py` (imported by `src/engine.py` for
`BOARD_SIZE`) is not part of the provided sources; the spec fixes the board
edge length `N = 8`. -/
def BOARD_SIZE : Nat := 8

/-- Enumeration `Color` from `src/engine.py`. -/
inductive Color where
  | black
  | white
deriving DecidableEq, Repr

/-- Class `Location` from `src/engine.py`: `i` is the rank, `j` the file, both
plain Python ints (hence `Int`, with no bounds imposed by construction). -/
structure Location where
  i : Int
  j : Int
deriving DecidableEq, Repr

/-- The data carried by a `Piece` object in `src/engine.py` (`color`, `loc`,
`has_moved`).  Move generation only ever tests squares for `None`-ness, but
the board genuinely stores full piece objects. -/
structure EnginePiece where
  color : Color
  loc : Location
  has_moved : Bool
deriving DecidableEq

/-- Grid `Board.board` from `src/engine.py`: an 8x8 grid of `Optional[Piece]`. -/
def Board : Type := Fin BOARD_SIZE → Fin BOARD_SIZE → Option EnginePiece

/-- A fresh board: every square `None`. -/
def emptyBoard : Board := fun _ _ => none

/-- Python `x in range(0, BOARD_SIZE)` for an int `x`. -/
def inRange (x : Int) : Bool := decide (0 ≤ x) && decide (x < (BOARD_SIZE : Int))

/-- Method `Piece.trim_los_to_board`: keep only locations with both components in
`range(0, BOARD_SIZE)`. -/
def trim_los_to_board (los : List Location) : List Location :=
  los.filter (fun x => inRange x.i && inRange x.j)

/-- Method `Pawn.generate_moves` from `src/engine.py`: three one-rank-forward
candidates at file offsets `-1, 0, +1`, plus the two-square push when
`has_moved` is false, all trimmed to the board. -/
def pawnMoves (color : Color) (has_moved : Bool) (loc : Location) : List Location :=
  let los : List Location :=
    match color with
    | .white =>
        [⟨loc.i + 1, loc.j - 1⟩, ⟨loc.i + 1, loc.j⟩, ⟨loc.i + 1, loc.j + 1⟩]
          ++ (if !has_moved then [⟨loc.i + 2, loc.j⟩] else [])
    | .black =>
        [⟨loc.i - 1, loc.j - 1⟩, ⟨loc.i - 1, loc.j⟩, ⟨loc.i - 1, loc.j + 1⟩]
          ++ (if !has_moved then [⟨loc.i - 2, loc.j⟩] else [])
  trim_los_to_board los

/-- The delta list `[-2, -1, 1, 2]` iterated by `Knight.generate_moves`. -/
def knightDeltas : List Int := [-2, -1, 1, 2]

/-- Method `Knight.generate_moves` from `src/engine.py`: all combinations of deltas
with distinct absolute values, bounds-checked inline. -/
def knightMoves (loc : Location) : List Location :=
  knightDeltas.flatMap fun delta_i =>
    knightDeltas.filterMap fun delta_j =>
      if delta_i.natAbs ≠ delta_j.natAbs
          ∧ inRange (loc.i + delta_i) = true
          ∧ inRange (loc.j + delta_j) = true
      then some ⟨loc.i + delta_i, loc.j + delta_j⟩
      else none

/-- Attribute `bound_move_step_limit`: an int, or `float('inf')` for the unbounded
sliding pieces. -/
inductive StepLimit where
  | fin (n : Nat)
  | unbounded
deriving DecidableEq, Repr

/-- Python `step <= self.bound_move_step_limit` (always true against
`float('inf')`). -/
def stepLE (s : Nat) : StepLimit → Bool
  | .fin n => decide (s ≤ n)
  | .unbounded => true

/-- Flag `BoundMoveVariationFlag` as its two bits (PARALLEL, DIAGONAL). -/
structure BoundMoveVariationFlag where
  parallel : Bool
  diagonal : Bool
deriving DecidableEq, Repr

/-- Constant `BoundMoveMixin.PARALLEL_DIRECTIONS`. -/
def PARALLEL_DIRECTIONS : List (Int × Int) := [(-1, 0), (0, -1), (1, 0), (0, 1)]

/-- Constant `BoundMoveMixin.DIAGONAL_DIRECTIONS`. -/
def DIAGONAL_DIRECTIONS : List (Int × Int) := [(-1, -1), (1, -1), (-1, 1), (1, 1)]

/-- The coordinate reached on step `s` in direction `d`:
`(loc.i + d[0]*step, loc.j + d[1]*step)`. -/
def stepLoc (loc : Location) (d : Int × Int) (s : Nat) : Location :=
  ⟨loc.i + d.1 * s, loc.j + d.2 * s⟩

/-- Test `board.board[i][j] is None`, evaluated only behind the loop's bounds
checks; out of `[0, BOARD_SIZE)` this helper returns `false` (the loop never
reaches the access there). -/
def cellIsEmptyAt (b : Board) (i j : Int) : Bool :=
  if h : 0 ≤ i ∧ i < (BOARD_SIZE : Int) ∧ 0 ≤ j ∧ j < (BOARD_SIZE : Int) then
    (b ⟨i.toNat, by omega⟩ ⟨j.toNat, by omega⟩).isNone
  else false

/-- The guard of the `while` loop in `BoundMoveMixin.generate_moves` at step
`s`: step within limit, both components of the stepped coordinate in range,
and the stepped square empty. -/
def slideCond (b : Board) (loc : Location) (d : Int × Int) (limit : StepLimit)
    (s : Nat) : Bool :=
  stepLE s limit
    && inRange (loc.i + d.1 * s)
    && inRange (loc.j + d.2 * s)
    && cellIsEmptyAt b (loc.i + d.1 * s) (loc.j + d.2 * s)

/-- The `while` loop of `BoundMoveMixin.generate_moves` for one direction,
starting at step `s`, with explicit fuel.  Fuel `BOARD_SIZE + 1` is exact:
the guard provably fails within the first `BOARD_SIZE + 1` steps for every
direction the mixin iterates (`slideCond_stop` below), so the loop never runs
longer. -/
def walkGo (b : Board) (loc : Location) (d : Int × Int) (limit : StepLimit) :
    Nat → Nat → List Location
  | _, 0 => []
  | s, fuel + 1 =>
      if slideCond b loc d limit s then
        stepLoc loc d s :: walkGo b loc d limit (s + 1) fuel
      else []

/-- One direction's contribution: the loop entered with `step = 1`. -/
def walkDir (b : Board) (loc : Location) (d : Int × Int) (limit : StepLimit) :
    List Location :=
  walkGo b loc d limit 1 (BOARD_SIZE + 1)

/-- Method `BoundMoveMixin.generate_moves`: concatenation of the per-direction walks
over the enabled direction families, parallel directions first. -/
def boundMoves (variation : BoundMoveVariationFlag) (limit : StepLimit)
    (loc : Location) (b : Board) : List Location :=
  let directions :=
    (if variation.parallel then PARALLEL_DIRECTIONS else [])
      ++ (if variation.diagonal then DIAGONAL_DIRECTIONS else [])
  directions.flatMap fun d => walkDir b loc d limit

/-- The board of the spec's stop-before-occupant scenario: a single piece
`p` sitting at `(0,3)`, every other square empty. -/
def rookBlockerBoard (p : EnginePiece) : Board :=
  fun x y => if x.val = 0 ∧ y.val = 3 then some p else none

/-- The closed kind enumeration over the six concrete piece classes. -/
inductive PieceKind where
  | pawn
  | knight
  | bishop
  | rook
  | queen
  | king
deriving DecidableEq, Repr

/-- Per-class `bound_move_variation` (Bishop DIAGONAL, Rook PARALLEL,
Queen/King both); meaningful for the four sliding classes. -/
def bound_move_variation : PieceKind → BoundMoveVariationFlag
  | .bishop => ⟨false, true⟩
  | .rook => ⟨true, false⟩
  | .queen => ⟨true, true⟩
  | .king => ⟨true, true⟩
  | _ => ⟨false, false⟩

/-- Per-class `bound_move_step_limit` (`float('inf')` for Bishop/Rook/Queen,
`1` for King). -/
def bound_move_step_limit : PieceKind → StepLimit
  | .king => .fin 1
  | _ => .unbounded

/-- Polymorphic dispatch of `generate_moves` over the six piece classes of
`src/engine.py`, given the moving piece's fields (`color`, `has_moved`,
`loc`) and the board. -/
def generate_moves (kind : PieceKind) (color : Color) (has_moved : Bool)
    (loc : Location) (b : Board) : List Location :=
  match kind with
  | .pawn => pawnMoves color has_moved loc
  | .knight => knightMoves loc
  | .bishop => boundMoves (bound_move_variation .bishop) (bound_move_step_limit .bishop) loc b
  | .rook => boundMoves (bound_move_variation .rook) (bound_move_step_limit .rook) loc b
  | .queen => boundMoves (bound_move_variation .queen) (bound_move_step_limit .queen) loc b
  | .king => boundMoves (bound_move_variation .king) (bound_move_step_limit .king) loc b

/-- Python list indexing into a list of length `BOARD_SIZE`: indices in
`[0, N)` are used directly, indices in `[-N, 0)` wrap to `index + N`, and
anything else raises `IndexError`. -/
def pyIndex (x : Int) : Option (Fin BOARD_SIZE) :=
  if h : 0 ≤ x ∧ x < (BOARD_SIZE : Int) then some ⟨x.toNat, by omega⟩
  else if h2 : -(BOARD_SIZE : Int) ≤ x ∧ x < 0 then
    some ⟨(x + (BOARD_SIZE : Int)).toNat, by omega⟩
  else none

/-- Access `board.board[i][j]` exactly as Python evaluates it: fallible (an
`IndexError` when a component is outside `[-N, N)`), wrapping negatives. -/
def pyGetCell (b : Board) (i j : Int) : Except Unit (Option EnginePiece) :=
  match pyIndex i, pyIndex j with
  | some fi, some fj => .ok (b fi fj)
  | _, _ => .error ()

/-- The `while` guard evaluated in Python's short-circuit order: the board is
dereferenced (fallibly) only after the step-limit and both bounds checks have
passed. -/
def slideCondE (b : Board) (loc : Location) (d : Int × Int) (limit : StepLimit)
    (s : Nat) : Except Unit Bool :=
  if stepLE s limit = false then .ok false
  else if inRange (loc.i + d.1 * s) = false then .ok false
  else if inRange (loc.j + d.2 * s) = false then .ok false
  else do
    let cell ← pyGetCell b (loc.i + d.1 * s) (loc.j + d.2 * s)
    .ok cell.isNone

/-- Fallible rendering of the per-direction `while` loop. -/
def walkGoE (b : Board) (loc : Location) (d : Int × Int) (limit : StepLimit) :
    Nat → Nat → Except Unit (List Location)
  | _, 0 => .ok []
  | s, fuel + 1 => do
      let c ← slideCondE b loc d limit s
      if c then
        let rest ← walkGoE b loc d limit (s + 1) fuel
        .ok (stepLoc loc d s :: rest)
      else .ok []

/-- Fallible rendering of the `for direction in directions` loop. -/
def dirsWalkE (b : Board) (loc : Location) (limit : StepLimit) :
    List (Int × Int) → Except Unit (List Location)
  | [] => .ok []
  | d :: rest => do
      let xs ← walkGoE b loc d limit 1 (BOARD_SIZE + 1)
      let ys ← dirsWalkE b loc limit rest
      .ok (xs ++ ys)

/-- Fallible rendering of `BoundMoveMixin.generate_moves`. -/
def boundMovesE (variation : BoundMoveVariationFlag) (limit : StepLimit)
    (loc : Location) (b : Board) : Except Unit (List Location) :=
  dirsWalkE b loc limit
    ((if variation.parallel then PARALLEL_DIRECTIONS else [])
      ++ (if variation.diagonal then DIAGONAL_DIRECTIONS else []))

/-- State-threaded, fallible rendering of `generate_moves`: every board read
is fallible Python indexing, and the board travels through the computation so
mutation would be visible in the returned state.  No statement of any of the
six variants writes the board. -/
def generate_movesRun (kind : PieceKind) (color : Color) (has_moved : Bool)
    (loc : Location) (b : Board) : Except Unit (List Location × Board) :=
  match kind with
  | .pawn => .ok (pawnMoves color has_moved loc, b)
  | .knight => .ok (knightMoves loc, b)
  | .bishop => do
      let l ← boundMovesE (bound_move_variation .bishop) (bound_move_step_limit .bishop) loc b
      .ok (l, b)
  | .rook => do
      let l ← boundMovesE (bound_move_variation .rook) (bound_move_step_limit .rook) loc b
      .ok (l, b)
  | .queen => do
      let l ← boundMovesE (bound_move_variation .queen) (bound_move_step_limit .queen) loc b
      .ok (l, b)
  | .king => do
      let l ← boundMovesE (bound_move_variation .king) (bound_move_step_limit .king) loc b
      .ok (l, b)

end Engine

namespace BoardModule

/-- Modelled from the spec: `engine/constants.py` (imported by
`src/engine/board.py`) is not part of the provided sources; the spec fixes
the board edge length `N = 8`. -/
def BOARD_SIZE : Nat := 8

/-- Modelled from the spec: `engine/types.py` is not part of the provided
sources.  `Color` is the binary enumeration {BLACK, WHITE}; the numeric
values stored in the `int8` array are taken as distinct small integers
(BLACK = 0, WHITE = 1) — the board code depends only on their injectivity
and on fitting in an `int8`. -/
inductive Color where
  | black
  | white
deriving DecidableEq, Repr

/-- The integer value of a `Color` member. -/
def Color.val : Color → Int
  | .black => 0
  | .white => 1

/-- Python `Color(value)`: the member with that value, or a `ValueError`. -/
def Color.ofVal (v : Int) : Option Color :=
  if v = 0 then some .black else if v = 1 then some .white else none

/-- Modelled from the spec: `engine/types.py` is not part of the provided
sources.  `PieceType` is the closed enumeration
{PAWN, KNIGHT, BISHOP, ROOK, QUEEN, KING} with distinct small integer
values (1..6). -/
inductive PieceType where
  | pawn
  | knight
  | bishop
  | rook
  | queen
  | king
deriving DecidableEq, Repr

/-- The integer value of a `PieceType` member. -/
def PieceType.val : PieceType → Int
  | .pawn => 1
  | .knight => 2
  | .bishop => 3
  | .rook => 4
  | .queen => 5
  | .king => 6

/-- Python `PieceType(value)`: the member with that value, or a
`ValueError`. -/
def PieceType.ofVal (v : Int) : Option PieceType :=
  if v = 1 then some .pawn
  else if v = 2 then some .knight
  else if v = 3 then some .bishop
  else if v = 4 then some .rook
  else if v = 5 then some .queen
  else if v = 6 then some .king
  else none

/-- The `np.int8` cast: wrap into `[-128, 128)`. -/
def int8 (v : Int) : Int := (v + 128) % 256 - 128

/-- One square of `Board.board`: the four `int8` components at indices
`0..3` (piece color, piece type, whether the piece has moved, whether the
square is occupied). -/
structure Square where
  color : Int
  ptype : Int
  moved : Int
  occupied : Int
deriving DecidableEq, Repr

/-- Array `Board.board` from `src/engine/board.py`: an `8 × 8 × 4` `int8` array,
viewed as an 8x8 grid of 4-component squares. -/
def Board : Type := Fin BOARD_SIZE → Fin BOARD_SIZE → Square

/-- Methods `Board.__init__` / `Board.clear`: every component 0. -/
def initBoard : Board := fun _ _ => ⟨0, 0, 0, 0⟩

/-- numpy indexing along an axis of length `BOARD_SIZE`: indices in `[0, N)`
are used directly, indices in `[-N, 0)` wrap to `index + N`, anything else
raises `IndexError`. -/
def npIndex (x : Int) : Option (Fin BOARD_SIZE) :=
  if h : 0 ≤ x ∧ x < (BOARD_SIZE : Int) then some ⟨x.toNat, by omega⟩
  else if h2 : -(BOARD_SIZE : Int) ≤ x ∧ x < 0 then
    some ⟨(x + (BOARD_SIZE : Int)).toNat, by omega⟩
  else none

/-- The errors the board operations raise: numpy `IndexError` for an invalid
index, and the three flavors of `ValueError` (placement onto an occupied
square, query of an empty square, enum construction from a stale value). -/
inductive BErr where
  | indexError
  | occupiedError
  | emptyError
  | enumError
deriving DecidableEq, Repr

/-- Overwrite one square of the grid. -/
def setSquare (b : Board) (fi fj : Fin BOARD_SIZE) (sq : Square) : Board :=
  fun x y => if x = fi ∧ y = fj then sq else b x y

/-- Method `Board.place_piece`: `ValueError` if the occupancy component at
`location` is non-zero; otherwise write `[color, type, 0, 1]` there and
return the (piece, location) pair as given. -/
def place_piece (location : Int × Int) (piece : Color × PieceType)
    (b : Board) : Except BErr ((Color × PieceType) × (Int × Int) × Board) :=
  match npIndex location.1, npIndex location.2 with
  | some fi, some fj =>
      if (b fi fj).occupied ≠ 0 then .error .occupiedError
      else .ok (piece, location,
        setSquare b fi fj ⟨int8 piece.1.val, int8 piece.2.val, int8 0, int8 1⟩)
  | _, _ => .error .indexError

/-- Method `Board.remove_piece`: mark the square unoccupied. -/
def remove_piece (location : Int × Int) (b : Board) : Except BErr Board :=
  match npIndex location.1, npIndex location.2 with
  | some fi, some fj =>
      .ok (setSquare b fi fj { b fi fj with occupied := int8 0 })
  | _, _ => .error .indexError

/-- Method `Board.promote_piece`: overwrite the type component (no occupancy
check). -/
def promote_piece (location : Int × Int) (rank : PieceType) (b : Board) :
    Except BErr Board :=
  match npIndex location.1, npIndex location.2 with
  | some fi, some fj =>
      .ok (setSquare b fi fj { b fi fj with ptype := int8 rank.val })
  | _, _ => .error .indexError

/-- Method `Board.move_piece` (parameters `start`, `end`): copy the square record
from `start` onto `stop`, mark `start` unoccupied, mark `stop` moved. -/
def move_piece (start stop : Int × Int) (b : Board) : Except BErr Board :=
  match npIndex start.1, npIndex start.2, npIndex stop.1, npIndex stop.2 with
  | some si, some sj, some ei, some ej =>
      let b1 := setSquare b ei ej (b si sj)
      let b2 := setSquare b1 si sj { b1 si sj with occupied := int8 0 }
      let b3 := setSquare b2 ei ej { b2 ei ej with moved := int8 1 }
      .ok b3
  | _, _, _, _ => .error .indexError

/-- Method `Board.get_piece`: `ValueError` on an unoccupied square, otherwise the
(Color, PieceType) pair rebuilt from the stored component values. -/
def get_piece (loc : Int × Int) (b : Board) : Except BErr (Color × PieceType) :=
  match npIndex loc.1, npIndex loc.2 with
  | some fi, some fj =>
      if (b fi fj).occupied = 0 then .error .emptyError
      else
        match Color.ofVal (b fi fj).color, PieceType.ofVal (b fi fj).ptype with
        | some c, some t => .ok (c, t)
        | _, _ => .error .enumError
  | _, _ => .error .indexError

end BoardModule

open Engine in
/-- C8: Knight move generation from `(4,4)` on the 8x8 board yields exactly
the 8 L-shaped coordinates, each exactly once (the list is duplicate-free),
for every color, `has_moved` flag, and board. -/
theorem C8_knight_central_exact (c : Color) (hm : Bool) (b : Board) :
    generate_moves .knight c hm ⟨4, 4⟩ b =
      [⟨2, 3⟩, ⟨2, 5⟩, ⟨3, 2⟩, ⟨3, 6⟩, ⟨5, 2⟩, ⟨5, 6⟩, ⟨6, 3⟩, ⟨6, 5⟩] ∧
    ([⟨2, 3⟩, ⟨2, 5⟩, ⟨3, 2⟩, ⟨3, 6⟩, ⟨5, 2⟩, ⟨5, 6⟩, ⟨6, 3⟩,
      (⟨6, 5⟩ : Location)] : List Location).Nodup := by
  refine ⟨?_, by decide⟩
  show knightMoves ⟨4, 4⟩ = _
  decide

open Engine in
/-- C3: a WHITE pawn at `(1,4)` with `has_moved = false` includes `(3,4)`
among its candidates; a WHITE pawn at `(2,4)` with `has_moved = true`
generates exactly the three one-step candidates and no two-square push. -/
theorem C3_pawn_double_step_gating (b b2 : Board) :
    (⟨3, 4⟩ : Location) ∈ generate_moves .pawn .white false ⟨1, 4⟩ b ∧
    generate_moves .pawn .white true ⟨2, 4⟩ b2 = [⟨3, 3⟩, ⟨3, 4⟩, ⟨3, 5⟩] ∧
    (⟨4, 4⟩ : Location) ∉ generate_moves .pawn .white true ⟨2, 4⟩ b2 := by
  refine ⟨?_, ?_, ?_⟩
  · show (⟨3, 4⟩ : Location) ∈ pawnMoves .white false ⟨1, 4⟩
    decide
  · show pawnMoves .white true ⟨2, 4⟩ = _
    decide
  · show (⟨4, 4⟩ : Location) ∉ pawnMoves .white true ⟨2, 4⟩
    decide

namespace Engine

/-- Unfolding of `inRange` to the two integer inequalities. -/
theorem inRange_iff (x : Int) : inRange x = true ↔ 0 ≤ x ∧ x < 8 := by
  simp [inRange, BOARD_SIZE]

/-- A true loop guard contains, in particular, the two bounds checks. -/
theorem slideCond_bounds {b : Board} {loc : Location} {d : Int × Int}
    {limit : StepLimit} {s : Nat} (h : slideCond b loc d limit s = true) :
    (0 ≤ loc.i + d.1 * s ∧ loc.i + d.1 * s < 8)
      ∧ (0 ≤ loc.j + d.2 * s ∧ loc.j + d.2 * s < 8) := by
  have h' := h
  simp only [slideCond, Bool.and_eq_true] at h'
  exact ⟨(inRange_iff _).1 h'.1.1.2, (inRange_iff _).1 h'.1.2⟩

/-- Membership characterization of the per-direction `while` loop: a location
is produced starting from step `s` with the given fuel exactly when it is the
stepped coordinate of some step `t` in window, with the guard true at every
step from `s` up to `t`. -/
theorem mem_walkGo (b : Board) (loc : Location) (d : Int × Int)
    (limit : StepLimit) :
    ∀ (fuel s : Nat) (x : Location),
      x ∈ walkGo b loc d limit s fuel ↔
        ∃ t, s ≤ t ∧ t < s + fuel ∧ x = stepLoc loc d t ∧
          ∀ u, s ≤ u → u ≤ t → slideCond b loc d limit u = true := by
  intro fuel
  induction fuel with
  | zero =>
    intro s x
    simp only [walkGo, List.not_mem_nil, false_iff, not_exists]
    intro t h
    omega
  | succ n ih =>
    intro s x
    by_cases hc : slideCond b loc d limit s = true
    · simp only [walkGo, hc, if_true, List.mem_cons]
      constructor
      · rintro (rfl | hx)
        · refine ⟨s, le_refl s, by omega, rfl, fun u h1 h2 => ?_⟩
          have : u = s := by omega
          rw [this]; exact hc
        · obtain ⟨t, h1, h2, h3, h4⟩ := (ih (s + 1) x).1 hx
          refine ⟨t, by omega, by omega, h3, fun u h5 h6 => ?_⟩
          by_cases hu : u = s
          · rw [hu]; exact hc
          · exact h4 u (by omega) h6
      · rintro ⟨t, h1, h2, h3, h4⟩
        by_cases hts : t = s
        · left; rw [h3, hts]
        · right
          exact (ih (s + 1) x).2
            ⟨t, by omega, by omega, h3, fun u h5 h6 => h4 u (by omega) h6⟩
    · have hc' : slideCond b loc d limit s = false := by
        simpa using hc
      simp only [walkGo, hc', if_false, Bool.false_eq_true, List.not_mem_nil,
        false_iff, not_exists]
      rintro t ⟨h1, h2, h3, h4⟩
      have := h4 s (le_refl s) h1
      rw [hc'] at this
      exact Bool.false_ne_true this

/-- The eight direction vectors are pairwise step-injective: distinct steps in
the same direction reach distinct coordinates. -/
theorem stepLoc_inj {loc : Location} {d : Int × Int}
    (hd : d ∈ PARALLEL_DIRECTIONS ++ DIAGONAL_DIRECTIONS) {s t : Nat}
    (h : stepLoc loc d s = stepLoc loc d t) : s = t := by
  simp only [PARALLEL_DIRECTIONS, DIAGONAL_DIRECTIONS, List.mem_append,
    List.mem_cons, List.not_mem_nil, or_false] at hd
  simp only [stepLoc, Location.mk.injEq] at h
  rcases hd with (rfl | rfl | rfl | rfl) | (rfl | rfl | rfl | rfl) <;>
    · simp only at h
      omega

/-- For every direction the mixin iterates, the loop guard fails within the
first `BOARD_SIZE + 1` steps: if it held at step 1 and at step `s`, then
`s ≤ 8`. -/
theorem slideCond_stop {b : Board} {loc : Location} {d : Int × Int}
    {limit : StepLimit} {s : Nat}
    (hd : d ∈ PARALLEL_DIRECTIONS ++ DIAGONAL_DIRECTIONS)
    (h1 : slideCond b loc d limit 1 = true)
    (hs : slideCond b loc d limit s = true) : s ≤ 8 := by
  have hb1 := slideCond_bounds h1
  have hbs := slideCond_bounds hs
  simp only [PARALLEL_DIRECTIONS, DIAGONAL_DIRECTIONS, List.mem_append,
    List.mem_cons, List.not_mem_nil, or_false] at hd
  rcases hd with (rfl | rfl | rfl | rfl) | (rfl | rfl | rfl | rfl) <;>
    · simp only [Nat.cast_one, mul_one, one_mul, neg_mul, zero_mul,
        mul_zero, neg_zero, add_zero] at hb1 hbs
      omega

end Engine

namespace Engine

/-- Locations surviving `trim_los_to_board` are in bounds. -/
theorem mem_trim_bounds {los : List Location} {l : Location}
    (h : l ∈ trim_los_to_board los) :
    (0 ≤ l.i ∧ l.i < 8) ∧ (0 ≤ l.j ∧ l.j < 8) := by
  simp only [trim_los_to_board, List.mem_filter, Bool.and_eq_true,
    inRange_iff] at h
  exact h.2

/-- Every location produced by the sliding mixin is in bounds. -/
theorem boundMoves_bounds {variation : BoundMoveVariationFlag}
    {limit : StepLimit} {loc : Location} {b : Board} {l : Location}
    (h : l ∈ boundMoves variation limit loc b) :
    (0 ≤ l.i ∧ l.i < 8) ∧ (0 ≤ l.j ∧ l.j < 8) := by
  simp only [boundMoves, List.mem_flatMap] at h
  obtain ⟨d, _, hw⟩ := h
  simp only [walkDir] at hw
  obtain ⟨t, h1, h2, rfl, h4⟩ :=
    (mem_walkGo b loc d limit (BOARD_SIZE + 1) 1 l).1 hw
  have hb := slideCond_bounds (h4 t h1 (le_refl t))
  simpa [stepLoc] using hb

/-- Every location produced by the knight enumeration is in bounds. -/
theorem knightMoves_bounds {loc : Location} {l : Location}
    (h : l ∈ knightMoves loc) :
    (0 ≤ l.i ∧ l.i < 8) ∧ (0 ≤ l.j ∧ l.j < 8) := by
  simp only [knightMoves, List.mem_flatMap, List.mem_filterMap] at h
  obtain ⟨di, _, dj, _, hif⟩ := h
  split at hif
  · rename_i hcond
    obtain ⟨-, hri, hrj⟩ := hcond
    rw [inRange_iff] at hri hrj
    cases hif
    exact ⟨hri, hrj⟩
  · exact absurd hif (by simp)

end Engine

open Engine in
/-- C1: for every piece kind, color, `has_moved` flag, in-bounds starting
coordinate and board, every coordinate generated by `generate_moves` lies
within `[0, N)²` with `N = BOARD_SIZE = 8`. -/
theorem C1_bounds_invariant (kind : PieceKind) (c : Color) (hm : Bool)
    (loc : Location) (b : Board)
    (_hi : 0 ≤ loc.i ∧ loc.i < (BOARD_SIZE : Int))
    (_hj : 0 ≤ loc.j ∧ loc.j < (BOARD_SIZE : Int)) :
    ∀ l ∈ generate_moves kind c hm loc b,
      (0 ≤ l.i ∧ l.i < (BOARD_SIZE : Int))
        ∧ (0 ≤ l.j ∧ l.j < (BOARD_SIZE : Int)) := by
  intro l hl
  have hN : (BOARD_SIZE : Int) = 8 := by decide
  rw [hN]
  cases kind with
  | pawn => exact mem_trim_bounds hl
  | knight => exact knightMoves_bounds hl
  | bishop => exact boundMoves_bounds hl
  | rook => exact boundMoves_bounds hl
  | queen => exact boundMoves_bounds hl
  | king => exact boundMoves_bounds hl

open Engine in
/-- Witness for C1 at a concrete input: the knight at `(4,4)` on the empty
board, evaluated at the generated move `(2,3)`. -/
theorem C1_bounds_invariant_witness :
    (0 ≤ (⟨2, 3⟩ : Location).i ∧ (⟨2, 3⟩ : Location).i < (BOARD_SIZE : Int))
      ∧ (0 ≤ (⟨2, 3⟩ : Location).j
          ∧ (⟨2, 3⟩ : Location).j < (BOARD_SIZE : Int)) :=
  C1_bounds_invariant .knight .white false ⟨4, 4⟩ emptyBoard
    (by decide) (by decide) ⟨2, 3⟩ (by decide)

open Engine in
/-- C2: (1) for every sliding walk in an iterated direction, the stepped
coordinate of step `s` is in the result exactly when the loop guard (step
within limit, in bounds, square empty) holds at every step `1..s` — so the
walk takes consecutive empty in-bounds squares up to the limit, stops at the
first failure, and in particular never includes the first occupied square;
(2) a Rook at `(0,0)` with any piece at `(0,3)` on an otherwise empty board
generates exactly `(1,0)..(7,0)` in the `+rank` direction and `(0,1),(0,2)`
in the `+file` direction, stopping before the occupant. -/
theorem C2_sliding_stop_before_occupant :
    (∀ (b : Board) (loc : Location) (d : Int × Int),
        d ∈ PARALLEL_DIRECTIONS ++ DIAGONAL_DIRECTIONS →
        ∀ (limit : StepLimit) (s : Nat), 1 ≤ s →
          (stepLoc loc d s ∈ walkDir b loc d limit ↔
            ∀ t, 1 ≤ t → t ≤ s → slideCond b loc d limit t = true))
      ∧ (∀ p : EnginePiece,
          generate_moves .rook .white false ⟨0, 0⟩ (rookBlockerBoard p) =
            [⟨1, 0⟩, ⟨2, 0⟩, ⟨3, 0⟩, ⟨4, 0⟩, ⟨5, 0⟩, ⟨6, 0⟩, ⟨7, 0⟩,
             ⟨0, 1⟩, ⟨0, 2⟩]) := by
  constructor
  · intro b loc d hd limit s hs
    constructor
    · intro hmem
      obtain ⟨t, h1, h2, heq, h4⟩ :=
        (mem_walkGo b loc d limit (BOARD_SIZE + 1) 1 _).1
          (by simpa [walkDir] using hmem)
      have hst : s = t := stepLoc_inj hd heq
      subst hst
      intro u hu1 hu2
      exact h4 u hu1 hu2
    · intro hall
      have h1 := hall 1 (le_refl 1) hs
      have hss := hall s hs (le_refl s)
      have hle : s ≤ 8 := slideCond_stop hd h1 hss
      have : stepLoc loc d s ∈ walkGo b loc d limit 1 (BOARD_SIZE + 1) :=
        (mem_walkGo b loc d limit (BOARD_SIZE + 1) 1 _).2
          ⟨s, hs, by simp [BOARD_SIZE]; omega, rfl, fun u hu1 hu2 => hall u hu1 hu2⟩
      simpa [walkDir] using this
  · intro p
    rfl

open Engine in
/-- Witness for C2 at a concrete input: direction `(0,1)` from `(0,0)` on the
empty board with no step limit, at step `1`. -/
theorem C2_sliding_stop_before_occupant_witness :
    stepLoc ⟨0, 0⟩ ((0 : Int), (1 : Int)) 1 ∈
        walkDir emptyBoard ⟨0, 0⟩ ((0 : Int), (1 : Int)) .unbounded ↔
      ∀ t, 1 ≤ t → t ≤ 1 →
        slideCond emptyBoard ⟨0, 0⟩ ((0 : Int), (1 : Int)) .unbounded t = true :=
  C2_sliding_stop_before_occupant.1 emptyBoard ⟨0, 0⟩ ((0 : Int), (1 : Int))
    (by decide) .unbounded 1 (le_refl 1)

namespace Engine

/-- Behind passing bounds checks, the fallible board read succeeds and agrees
with the emptiness test of the pure guard. -/
theorem pyGetCell_cellIsEmpty {b : Board} {i j : Int}
    (hi : inRange i = true) (hj : inRange j = true) :
    ∃ cell, pyGetCell b i j = .ok cell
      ∧ cell.isNone = cellIsEmptyAt b i j := by
  have hN : (BOARD_SIZE : Int) = 8 := by decide
  have hi' := (inRange_iff i).1 hi
  have hj' := (inRange_iff j).1 hj
  have hi2 : 0 ≤ i ∧ i < (BOARD_SIZE : Int) := by omega
  have hj2 : 0 ≤ j ∧ j < (BOARD_SIZE : Int) := by omega
  refine ⟨b ⟨i.toNat, by omega⟩ ⟨j.toNat, by omega⟩, ?_, ?_⟩
  · unfold pyGetCell pyIndex
    rw [dif_pos hi2, dif_pos hj2]
  · unfold cellIsEmptyAt
    rw [dif_pos ⟨hi2.1, hi2.2, hj2.1, hj2.2⟩]

/-- The fallible guard never raises and computes the pure guard. -/
theorem slideCondE_eq (b : Board) (loc : Location) (d : Int × Int)
    (limit : StepLimit) (s : Nat) :
    slideCondE b loc d limit s = .ok (slideCond b loc d limit s) := by
  unfold slideCondE slideCond
  by_cases h1 : stepLE s limit = true
  · by_cases h2 : inRange (loc.i + d.1 * s) = true
    · by_cases h3 : inRange (loc.j + d.2 * s) = true
      · obtain ⟨cell, hcell, hnone⟩ := pyGetCell_cellIsEmpty (b := b) h2 h3
        simp [h1, h2, h3, hcell, hnone, Bind.bind, Except.bind]
      · have h3' : inRange (loc.j + d.2 * s) = false := by simpa using h3
        simp [h1, h2, h3']
    · have h2' : inRange (loc.i + d.1 * s) = false := by simpa using h2
      simp [h1, h2']
  · have h1' : stepLE s limit = false := by simpa using h1
    simp [h1']

/-- The fallible per-direction loop never raises and computes the pure one. -/
theorem walkGoE_eq (b : Board) (loc : Location) (d : Int × Int)
    (limit : StepLimit) :
    ∀ fuel s, walkGoE b loc d limit s fuel =
      .ok (walkGo b loc d limit s fuel) := by
  intro fuel
  induction fuel with
  | zero => intro s; rfl
  | succ n ih =>
    intro s
    rw [walkGoE, walkGo]
    rw [slideCondE_eq]
    by_cases hc : slideCond b loc d limit s = true
    · simp [hc, ih, Bind.bind, Except.bind]
    · have hc' : slideCond b loc d limit s = false := by simpa using hc
      simp [hc', Bind.bind, Except.bind]

/-- The fallible direction iteration never raises and computes the flattened
pure walks. -/
theorem dirsWalkE_eq (b : Board) (loc : Location) (limit : StepLimit) :
    ∀ ds : List (Int × Int), dirsWalkE b loc limit ds =
      .ok (ds.flatMap fun d => walkDir b loc d limit) := by
  intro ds
  induction ds with
  | nil => rfl
  | cons d rest ih =>
    rw [dirsWalkE, walkGoE_eq, ih]
    simp [walkDir, Bind.bind, Except.bind]

end Engine

open Engine in
/-- C9: move generation is a pure read.  The state-threaded fallible
rendering of `generate_moves` (fallible board indexing, board passed through)
raises no error for any kind, color, flag, location and board, returns
exactly the pure result list, and hands back the board unchanged. -/
theorem C9_generate_moves_pure_read (kind : PieceKind) (c : Color) (hm : Bool)
    (loc : Location) (b : Board) :
    generate_movesRun kind c hm loc b =
      .ok (generate_moves kind c hm loc b, b) := by
  cases kind with
  | pawn => rfl
  | knight => rfl
  | bishop =>
    show (do
        let l ← boundMovesE (bound_move_variation .bishop)
          (bound_move_step_limit .bishop) loc b
        .ok (l, b) : Except Unit (List Location × Board)) = _
    rw [boundMovesE, dirsWalkE_eq]
    rfl
  | rook =>
    show (do
        let l ← boundMovesE (bound_move_variation .rook)
          (bound_move_step_limit .rook) loc b
        .ok (l, b) : Except Unit (List Location × Board)) = _
    rw [boundMovesE, dirsWalkE_eq]
    rfl
  | queen =>
    show (do
        let l ← boundMovesE (bound_move_variation .queen)
          (bound_move_step_limit .queen) loc b
        .ok (l, b) : Except Unit (List Location × Board)) = _
    rw [boundMovesE, dirsWalkE_eq]
    rfl
  | king =>
    show (do
        let l ← boundMovesE (bound_move_variation .king)
          (bound_move_step_limit .king) loc b
        .ok (l, b) : Except Unit (List Location × Board)) = _
    rw [boundMovesE, dirsWalkE_eq]
    rfl

namespace BoardModule

/-- An in-bounds index passes numpy indexing unchanged. -/
theorem npIndex_fin (f : Fin BOARD_SIZE) : npIndex (f.val : Int) = some f := by
  have h : 0 ≤ (f.val : Int) ∧ (f.val : Int) < (BOARD_SIZE : Int) :=
    ⟨Int.natCast_nonneg _, by exact_mod_cast f.isLt⟩
  rw [npIndex, dif_pos h]
  congr 1

/-- The `int8` cast is the identity on values already in range. -/
theorem int8_small {v : Int} (h1 : -128 ≤ v) (h2 : v < 128) : int8 v = v := by
  unfold int8
  omega

/-- Color values survive the `int8` store. -/
theorem int8_colorVal (c : Color) : int8 c.val = c.val := by
  cases c <;> decide

/-- Piece-type values survive the `int8` store. -/
theorem int8_ptypeVal (k : PieceType) : int8 k.val = k.val := by
  cases k <;> decide

/-- Rebuilding a `Color` from its stored value recovers it. -/
theorem Color.ofVal_colorVal (c : Color) : Color.ofVal c.val = some c := by
  cases c <;> decide

/-- Rebuilding a `PieceType` from its stored value recovers it. -/
theorem PieceType.ofVal_ptypeVal (k : PieceType) : PieceType.ofVal k.val = some k := by
  cases k <;> decide

end BoardModule

open BoardModule in
/-- C4: at every in-bounds coordinate, placement onto an occupied square
fails with the occupied-square error, and placement onto an unoccupied
square succeeds, writes the square record `[color, type, has_moved = 0,
occupied = 1]`, and returns the placed (piece, coordinate) pair. -/
theorem C4_place_occupied_error_or_writes (fi fj : Fin BOARD_SIZE) (b : Board)
    (c : Color) (k : PieceType) :
    ((b fi fj).occupied ≠ 0 →
      place_piece ((fi.val : Int), (fj.val : Int)) (c, k) b =
        .error .occupiedError)
    ∧ ((b fi fj).occupied = 0 →
      ∃ b2, place_piece ((fi.val : Int), (fj.val : Int)) (c, k) b =
          .ok ((c, k), ((fi.val : Int), (fj.val : Int)), b2)
        ∧ b2 fi fj = ⟨c.val, k.val, 0, 1⟩) := by
  constructor
  · intro h
    simp [place_piece, npIndex_fin, h]
  · intro h
    refine ⟨setSquare b fi fj ⟨int8 c.val, int8 k.val, int8 0, int8 1⟩, ?_, ?_⟩
    · simp [place_piece, npIndex_fin, h]
    · simp [setSquare, int8_colorVal, int8_ptypeVal]
      exact ⟨by decide, by decide⟩

open BoardModule in
/-- Witness for C4 at a concrete input: a white king placed on the empty
square `(0,0)` of a fresh board. -/
theorem C4_place_occupied_error_or_writes_witness :
    ∃ b2, place_piece ((0 : Int), (0 : Int)) (Color.white, PieceType.king)
        initBoard =
        .ok ((Color.white, PieceType.king), ((0 : Int), (0 : Int)), b2)
      ∧ b2 ⟨0, by decide⟩ ⟨0, by decide⟩ =
          ⟨Color.white.val, PieceType.king.val, 0, 1⟩ :=
  (C4_place_occupied_error_or_writes ⟨0, by decide⟩ ⟨0, by decide⟩ initBoard
    Color.white PieceType.king).2 (by decide)

open BoardModule in
/-- C5: at every in-bounds coordinate whose square is unoccupied, `place`
followed by `get` at the same coordinate returns the identical
(Color, PieceType) pair. -/
theorem C5_place_get_roundtrip (fi fj : Fin BOARD_SIZE) (b : Board)
    (c : Color) (k : PieceType) (h : (b fi fj).occupied = 0) :
    ∃ b2, place_piece ((fi.val : Int), (fj.val : Int)) (c, k) b =
        .ok ((c, k), ((fi.val : Int), (fj.val : Int)), b2)
      ∧ get_piece ((fi.val : Int), (fj.val : Int)) b2 = .ok (c, k) := by
  refine ⟨setSquare b fi fj ⟨int8 c.val, int8 k.val, int8 0, int8 1⟩, ?_, ?_⟩
  · simp [place_piece, npIndex_fin, h]
  · have hocc : int8 1 ≠ (0 : Int) := by decide
    simp [get_piece, npIndex_fin, setSquare, int8_colorVal, int8_ptypeVal,
      Color.ofVal_colorVal, PieceType.ofVal_ptypeVal, hocc]

open BoardModule in
/-- Witness for C5 at a concrete input: a black rook placed on `(3,5)` of a
fresh board and read back. -/
theorem C5_place_get_roundtrip_witness :
    ∃ b2, place_piece ((3 : Int), (5 : Int)) (Color.black, PieceType.rook)
        initBoard =
        .ok ((Color.black, PieceType.rook), ((3 : Int), (5 : Int)), b2)
      ∧ get_piece ((3 : Int), (5 : Int)) b2 = .ok (Color.black, PieceType.rook) :=
  C5_place_get_roundtrip ⟨3, by decide⟩ ⟨5, by decide⟩ initBoard
    Color.black PieceType.rook (by decide)

namespace BoardModule

/-- numpy indexing raises `IndexError` exactly for components outside
`[-BOARD_SIZE, BOARD_SIZE)`. -/
theorem npIndex_none_iff (x : Int) :
    npIndex x = none ↔ x < -(BOARD_SIZE : Int) ∨ (BOARD_SIZE : Int) ≤ x := by
  have hN : (BOARD_SIZE : Int) = 8 := by decide
  unfold npIndex
  split_ifs with h1 h2
  · rw [hN] at h1
    constructor
    · intro h
      exact h.elim
    · intro h
      omega
  · rw [hN] at h1 h2
    constructor
    · intro h
      exact h.elim
    · intro h
      omega
  · rw [hN] at h1 h2
    constructor
    · intro h
      omega
    · intro h
      rfl

/-- A component in `[-BOARD_SIZE, 0)` is silently wrapped: it addresses the
same square as `component + BOARD_SIZE`. -/
theorem npIndex_wrap {x : Int} (h1 : -(BOARD_SIZE : Int) ≤ x) (h2 : x < 0) :
    npIndex x = npIndex (x + (BOARD_SIZE : Int)) := by
  have hN : (BOARD_SIZE : Int) = 8 := by decide
  unfold npIndex
  rw [dif_neg (by omega), dif_pos (by constructor <;> omega),
    dif_pos (by constructor <;> omega)]

end BoardModule

open BoardModule in
/-- C6 (code observation): `promote_piece` on an unoccupied square raises no
error: on a fresh board, promoting `(0,0)` to QUEEN succeeds, writes the
queen's type value into the still-unoccupied square, and a subsequent `get`
still fails with the empty-square error — the claimed `EmptySquareError` on
promotion is never raised. -/
theorem C6_promote_empty_square_no_error :
    ∃ b2, promote_piece ((0 : Int), (0 : Int)) PieceType.queen initBoard =
        .ok b2
      ∧ (b2 ⟨0, by decide⟩ ⟨0, by decide⟩).occupied = 0
      ∧ (b2 ⟨0, by decide⟩ ⟨0, by decide⟩).ptype = PieceType.queen.val
      ∧ get_piece ((0 : Int), (0 : Int)) b2 = .error .emptyError := by
  exact ⟨_, rfl, by decide, by decide, by rfl⟩

open BoardModule in
/-- Counterexample to C7 as stated: the coordinate `(-1, 4)` lies outside
`[0, N)²`, yet `get` does not fail — after placing a white king at `(7, 4)`,
reading `(-1, 4)` silently wraps to the in-bounds square `(7, 4)` and
returns the king. -/
theorem C7_out_of_bounds_counterexample :
    ∃ b1, place_piece ((7 : Int), (4 : Int)) (Color.white, PieceType.king)
        initBoard =
        .ok ((Color.white, PieceType.king), ((7 : Int), (4 : Int)), b1)
      ∧ get_piece ((-1 : Int), (4 : Int)) b1 = .ok (Color.white, PieceType.king) := by
  exact ⟨_, rfl, by rfl⟩

open BoardModule in
/-- C7 amended: a coordinate with a component outside `[-N, N)` makes every
board operation (`place`, `get`, `remove`, `promote`, `move`) fail with the
index error; but a component in `[-N, 0)` is not rejected — it is silently
interpreted as `component + N` (numpy negative indexing), addressing an
in-bounds square. -/
theorem C7_amended_index_errors :
    (∀ (i j : Int) (b : Board) (c : Color) (k : PieceType),
        (i < -(BOARD_SIZE : Int) ∨ (BOARD_SIZE : Int) ≤ i
            ∨ j < -(BOARD_SIZE : Int) ∨ (BOARD_SIZE : Int) ≤ j) →
          place_piece (i, j) (c, k) b = .error .indexError
          ∧ get_piece (i, j) b = .error .indexError
          ∧ remove_piece (i, j) b = .error .indexError
          ∧ promote_piece (i, j) k b = .error .indexError
          ∧ move_piece (i, j) (i, j) b = .error .indexError)
    ∧ (∀ (i j : Int) (b : Board),
        -(BOARD_SIZE : Int) ≤ i → i < 0 →
          npIndex i = npIndex (i + (BOARD_SIZE : Int))
          ∧ get_piece (i, j) b = get_piece (i + (BOARD_SIZE : Int), j) b
          ∧ get_piece (j, i) b = get_piece (j, i + (BOARD_SIZE : Int)) b) := by
  constructor
  · intro i j b c k h
    have hnone : npIndex i = none ∨ npIndex j = none := by
      rcases h with h | h | h | h
      · exact Or.inl ((npIndex_none_iff i).2 (Or.inl h))
      · exact Or.inl ((npIndex_none_iff i).2 (Or.inr h))
      · exact Or.inr ((npIndex_none_iff j).2 (Or.inl h))
      · exact Or.inr ((npIndex_none_iff j).2 (Or.inr h))
    rcases hnone with h0 | h0
    · refine ⟨?_, ?_, ?_, ?_, ?_⟩ <;>
        simp [place_piece, get_piece, remove_piece, promote_piece,
          move_piece, h0]
    · cases hni : npIndex i with
      | none =>
        refine ⟨?_, ?_, ?_, ?_, ?_⟩ <;>
          simp [place_piece, get_piece, remove_piece, promote_piece,
            move_piece, hni]
      | some fi =>
        refine ⟨?_, ?_, ?_, ?_, ?_⟩ <;>
          simp [place_piece, get_piece, remove_piece, promote_piece,
            move_piece, hni, h0]
  · intro i j b h1 h2
    have hw := npIndex_wrap h1 h2
    refine ⟨hw, ?_, ?_⟩
    · simp only [get_piece]
      rw [hw]
    · simp only [get_piece]
      rw [hw]

open BoardModule in
/-- Witness for C7 amended, at concrete inputs: component `100` errors on
every operation; component `-3` wraps to `5`. -/
theorem C7_amended_index_errors_witness :
    (place_piece ((100 : Int), (0 : Int)) (Color.white, PieceType.pawn)
        initBoard = .error .indexError
      ∧ get_piece ((100 : Int), (0 : Int)) initBoard = .error .indexError
      ∧ remove_piece ((100 : Int), (0 : Int)) initBoard = .error .indexError
      ∧ promote_piece ((100 : Int), (0 : Int)) PieceType.pawn initBoard =
          .error .indexError
      ∧ move_piece ((100 : Int), (0 : Int)) ((100 : Int), (0 : Int)) initBoard =
          .error .indexError)
    ∧ (npIndex (-3) = npIndex ((-3) + (BOARD_SIZE : Int))
      ∧ get_piece ((-3 : Int), (0 : Int)) initBoard =
          get_piece ((-3) + (BOARD_SIZE : Int), (0 : Int)) initBoard
      ∧ get_piece ((0 : Int), (-3 : Int)) initBoard =
          get_piece ((0 : Int), (-3) + (BOARD_SIZE : Int)) initBoard) :=
  ⟨C7_amended_index_errors.1 100 0 initBoard Color.white PieceType.pawn
      (by decide),
    C7_amended_index_errors.2 (-3) 0 initBoard (by decide) (by decide)⟩

open BoardModule in
/-- C10: moving a piece with source and destination both equal to the same
in-bounds coordinate succeeds but leaves that square unoccupied (the record
is copied onto itself, then the source-clear step marks the shared square
unoccupied), so a subsequent `get` there fails with the empty-square
error. -/
theorem C10_move_to_self_clears_square (fi fj : Fin BOARD_SIZE) (b : Board) :
    ∃ b2, move_piece ((fi.val : Int), (fj.val : Int))
          ((fi.val : Int), (fj.val : Int)) b = .ok b2
      ∧ (b2 fi fj).occupied = 0
      ∧ get_piece ((fi.val : Int), (fj.val : Int)) b2 = .error .emptyError := by
  have hz : int8 0 = 0 := by decide
  simp only [move_piece, npIndex_fin]
  refine ⟨_, rfl, ?_, ?_⟩
  · simp [setSquare, hz]
  · simp [get_piece, npIndex_fin, setSquare, hz]
